import Mathlib

/-!
Shallow embedding of `src/server.js` (the `processProfile` function and its
helpers) from the linkedin-processor-n8n repository, together with proofs
about the frozen claims C1..C10.

Modelling conventions:
* JS numbers are modelled as `Int` (timestamps in milliseconds, durations
  rounded to integers) and exact `Rat` for the fractional intermediate
  arithmetic (`(end - start) / (1000*60*60*24*30)` etc.).
* A JS `Date` value is its timestamp in milliseconds since the Unix epoch;
  `new Date(y, m, d)` is local midnight of the (proleptic Gregorian)
  calendar day, with the local timezone modelled as UTC.  The ECMAScript
  two-digit-year rule (`0 <= y <= 99` maps to `1900 + y`) and month
  normalisation of `MakeDay` are included.
* `new Date()` (the "now" samples) is modelled by an explicit clock stream
  `sigma : Nat -> Int`; the k-th evaluation of `new Date()` inside one
  invocation of `processProfile` reads `sigma k`.  The source samples once
  per position (line 94) and once more before the seniority computation
  (line 160).
* Missing / `undefined` / `null` fields are `Option.none`; JS falsiness of
  strings ("" is falsy) and numbers (0 is falsy) is modelled explicitly.
* The only statements of the source that can throw are the
  `supportedLocales[0]` accesses (TypeError when `supportedLocales` is
  absent) and `decodeURI` (URIError on malformed percent-encoding), so the
  embedded `processProfile` returns `Except JSError Output`.
* `Math.round x` is `Int.floor (x + 1/2)`, exactly ECMAScript's rounding.
-/

namespace LinkedinProcessor

/-! ### JS numeric and date primitives -/

/-- ECMAScript `Math.round`: floor of `q + 1/2`. -/
def jsRound (q : Rat) : Int := (q + 1/2).floor

/-- Milliseconds in a civil day. -/
def msPerDay : Int := 86400000

/-- Days since 1970-01-01 of the proleptic Gregorian date `(y, m, d)`,
`m` 1-based.  Integer algorithm with floor division. -/
def daysFromCivil (y m d : Int) : Int :=
  let yAdj := y - (if m ≤ 2 then 1 else 0)
  let era := yAdj.fdiv 400
  let yoe := yAdj - era * 400
  let mp := m + (if 2 < m then -3 else 9)
  let doy := (153 * mp + 2).fdiv 5 + d - 1
  let doe := yoe * 365 + yoe.fdiv 4 - yoe.fdiv 100 + doy
  era * 146097 + doe - 719468

/-- Inverse of `daysFromCivil`: the proleptic Gregorian `(y, m, d)`
(`m` 1-based) of a day count since 1970-01-01. -/
def civilFromDays (z : Int) : Int × Int × Int :=
  let zs := z + 719468
  let era := zs.fdiv 146097
  let doe := zs - era * 146097
  let yoe := (doe - doe.fdiv 1460 + doe.fdiv 36524 - doe.fdiv 146096).fdiv 365
  let y := yoe + era * 400
  let doy := doe - (365 * yoe + yoe.fdiv 4 - yoe.fdiv 100)
  let mp := (5 * doy + 2).fdiv 153
  let d := doy - (153 * mp + 2).fdiv 5 + 1
  let m := mp + (if mp < 10 then 3 else -9)
  (y + (if m ≤ 2 then 1 else 0), m, d)

/-- `new Date(y, m, d)` with a zero-based month `m`, as a millisecond
timestamp (local midnight, local time modelled as UTC).  Follows the
ECMAScript `MakeDay` normalisation of out-of-range months and days and the
two-digit-year rule of the `Date` constructor. -/
def mkDateMs (y m d : Int) : Int :=
  let yy := if 0 ≤ y ∧ y ≤ 99 then y + 1900 else y
  let ym := yy + m.fdiv 12
  let mn := m.emod 12
  (daysFromCivil ym (mn + 1) 1 + (d - 1)) * msPerDay

/-- Abbreviated en-US month name, 1-based month. -/
def monthShort (m : Int) : String :=
  if m = 1 then "Jan" else if m = 2 then "Feb" else if m = 3 then "Mar"
  else if m = 4 then "Apr" else if m = 5 then "May" else if m = 6 then "Jun"
  else if m = 7 then "Jul" else if m = 8 then "Aug" else if m = 9 then "Sep"
  else if m = 10 then "Oct" else if m = 11 then "Nov" else if m = 12 then "Dec"
  else ""

/-- `date.toLocaleDateString('en-US', {year:'numeric', month:'short'})`
for a millisecond timestamp: abbreviated month, a space, the year. -/
def fmtMonthYear (ms : Int) : String :=
  let c := civilFromDays (ms.fdiv msPerDay)
  monthShort c.2.1 ++ " " ++ toString c.1

/-! ### JS string primitives -/

/-- Is `sub` a contiguous sublist of `l`?  (Executable substring search.) -/
def hasSubList (sub : List Char) : List Char → Bool
  | [] => sub.isEmpty
  | c :: t => sub.isPrefixOf (c :: t) || hasSubList sub t

/-- JS `s.includes(sub)`: substring containment. -/
def jsIncludes (s sub : String) : Bool := hasSubList sub.data s.data

/-- JS `s.toLowerCase()`, character by character (ASCII case mapping). -/
def jsToLower (s : String) : String := String.mk (s.data.map Char.toLower)

/-- Keep the first and last element, drop `""` from the middle.  Used to
model the collapsing behaviour of splitting on the regex `/\s+/`. -/
def dropInnerEmpties : List String → List String
  | [] => []
  | [a] => [a]
  | a :: b :: rest =>
      a :: (((b :: rest).dropLast.filter (fun t => t ≠ "")) ++
        [(b :: rest).getLast (List.cons_ne_nil b rest)])

/-- JS `s.split(/\s+/)`: split on maximal runs of whitespace.  A leading or
trailing run contributes an empty token, interior runs do not. -/
def jsSplitWs (s : String) : List String :=
  dropInnerEmpties (s.split Char.isWhitespace)

/-! ### The data model: input profile records -/

/-- A partial date `{year?, month?, day?}`. -/
structure PositionDate where
  year : Option Int := none
  month : Option Int := none
  day : Option Int := none
deriving DecidableEq, Repr

/-- One entry of the profile's `position` array. -/
structure Position where
  title : Option String := none
  description : Option String := none
  employmentType : Option String := none
  start : Option PositionDate := none
  «end» : Option PositionDate := none
  companyName : Option String := none
  companyId : Option String := none
  companyURL : Option String := none
  companyLogo : Option String := none
  companyStaffCountRange : Option String := none
  companyIndustry : Option String := none
  companyDescription : Option String := none
  companySpecialties : Option String := none
deriving DecidableEq, Repr

/-- A named entity (one element of `skills` / `languages`). -/
structure Named where
  name : Option String := none
deriving DecidableEq, Repr

/-- One element of `supportedLocales`. -/
structure Locale where
  country : Option String := none
deriving DecidableEq, Repr

/-- The `geo` object. -/
structure Geo where
  full : Option String := none
deriving DecidableEq, Repr

/-- One entry of the profile's `educations` array. -/
structure Education where
  start : Option PositionDate := none
  «end» : Option PositionDate := none
  degree : Option String := none
  fieldOfStudy : Option String := none
  schoolName : Option String := none
deriving DecidableEq, Repr

/-- An input profile record. -/
structure Profile where
  summary : Option String := none
  linkedin_public_identifier : Option String := none
  headline : Option String := none
  skills : Option (List Named) := none
  languages : Option (List Named) := none
  position : Option (List Position) := none
  educations : Option (List Education) := none
  firstName : Option String := none
  lastName : Option String := none
  profilePicture : Option String := none
  isOpenToWork : Option Bool := none
  isHiring : Option Bool := none
  supportedLocales : Option (List Locale) := none
  username : Option String := none
  urn : Option String := none
  geo : Option Geo := none
deriving DecidableEq, Repr

/-! ### The data model: output records -/

/-- One job entry inside an experience group (source lines 111-117). -/
structure JobEntry where
  jobTitle : String
  duration : Int
  dateRange : String
  description : String
  employmentType : String
deriving DecidableEq, Repr

/-- One experience group (source lines 133-143). -/
structure ExperienceEntry where
  company : String
  companyId : String
  companyLink : String
  companyLogo : String
  companyRange : String
  companyIndustry : String
  companyDescription : String
  companySpecialties : String
  jobs : List JobEntry
deriving DecidableEq, Repr

/-- One cleaned education entry (source lines 221-261); `date` and `degree`
are only set when non-empty. -/
structure EducationEntry where
  date : Option String := none
  degree : Option String := none
  school : String := ""
deriving DecidableEq, Repr

/-- The `output.skills` object of source line 304. -/
structure SkillsObj where
  skills : List (Option String)
  details : List Named
deriving DecidableEq, Repr

/-- The two kinds of exception `processProfile` can raise: the
`supportedLocales[0]` access on an absent array (TypeError) and
`decodeURI` on malformed percent-encoding (URIError). -/
inductive JSError
  | typeError
  | uriError
deriving DecidableEq, Repr

/-- The normalized output record. -/
structure Output where
  linkedin_public_identifier : Option String
  experiences : List ExperienceEntry
  years_of_experience : Int
  keywords : String
  current_industry : String
  current_job_title : String
  current_company : String
  current_employment_type : String
  current_company_employee_range : String
  job_titles : String
  industries_tag : String
  educations : List EducationEntry
  firstname : String
  lastname : String
  profile_pic : String
  spotlight : String
  is_open_to_work : Bool
  is_hiring : Bool
  about : String
  languages : String
  skills : Option SkillsObj
  headline : String
  current_employment_duration : Int
  degrees : String
  schools : String
  companies : String
  public_linkedin_identifier : String
  linkedin_url : String
  urn : Option String
  location : String
  profil_details : Profile
deriving DecidableEq, Repr

/-! ### Helper functions of the source -/

/-- JS `o || d` for an optional string `o`: the default `d` when `o` is
absent or the empty string (falsy). -/
def strOr (o : Option String) (d : String) : String :=
  match o with
  | some s => if s = "" then d else s
  | none => d

/-- Source lines 336-352, `createDateFromPositionDate`: `null` when the
partial date or its year is falsy; a missing or zero month defaults to
July (zero-based 6), a missing or zero day defaults to 1. -/
def createDateFromPositionDate : Option PositionDate → Option Int
  | none => none
  | some pd =>
    match pd.year with
    | none => none
    | some y =>
      if y = 0 then none
      else
        let month : Int :=
          match pd.month with
          | none => 6
          | some m => if m = 0 then 6 else m - 1
        let day : Int :=
          match pd.day with
          | none => 1
          | some d => if d = 0 then 1 else d
        some (mkDateMs y month day)

/-- Source lines 355-363, `isExcludedPosition`. -/
def isExcludedPosition (pos : Position) : Bool :=
  let employmentType := match pos.employmentType with
    | some s => if s = "" then "" else jsToLower s
    | none => ""
  let title := match pos.title with
    | some s => if s = "" then "" else jsToLower s
    | none => ""
  jsIncludes employmentType "intern" ||
    jsIncludes title "stagiaire" ||
    jsIncludes employmentType "volunteer" ||
    jsIncludes title "bénévole"

/-- Source lines 97 and 164, `pos.end && createDateFromPositionDate(pos.end) || now`. -/
def endMsOf (now : Int) (pos : Position) : Int :=
  match pos.«end» with
  | none => now
  | some pd => (createDateFromPositionDate (some pd)).getD now

/-- Milliseconds of a 30-day month (source line 102 divisor). -/
def msPerMonth : Rat := 1000 * 60 * 60 * 24 * 30

/-- Milliseconds of an average 365.25-day year (source line 181 divisor). -/
def msPerYear : Rat := 1000 * 60 * 60 * 24 * (365.25 : Rat)

/-- Source lines 93-117: duation, date range and the job entry of one
position, for one sample `now` of the clock. -/
def mkJobEntry (now : Int) (pos : Position) : JobEntry :=
  let startDate := createDateFromPositionDate pos.start
  let endDate := endMsOf now pos
  let jobDurationMonths : Rat :=
    match startDate with
    | none => 0
    | some s => max 0 (((endDate : Rat) - (s : Rat)) / msPerMonth)
  let dateRange : String :=
    match startDate with
    | none => ""
    | some s =>
      let startDateStr := fmtMonthYear s
      let endDateStr := if endDate < now then fmtMonthYear endDate else "Present"
      startDateStr ++ " - " ++ endDateStr
  { jobTitle := strOr pos.title ""
    duration := jsRound jobDurationMonths
    dateRange := dateRange
    description := strOr pos.description ""
    employmentType := strOr pos.employmentType "" }

/-- Source lines 133-143: a fresh experience group built from a position's
employer metadata, holding `je` as its single job. -/
def newEntry (pos : Position) (je : JobEntry) : ExperienceEntry :=
  { company := strOr pos.companyName "Unknown Company"
    companyId := strOr pos.companyId ""
    companyLink := strOr pos.companyURL ""
    companyLogo := strOr pos.companyLogo ""
    companyRange := strOr pos.companyStaffCountRange ""
    companyIndustry := strOr pos.companyIndustry ""
    companyDescription := strOr pos.companyDescription ""
    companySpecialties := strOr pos.companySpecialties ""
    jobs := [je] }

/-- The defaulted company id of a position (source line 85, `pos.companyId || ''`). -/
def cidOf (pos : Position) : String := strOr pos.companyId ""

/-- Replace the last element of a list by `f` of itself (the mutation
`currentExperienceEntry.jobs.push(...)`, where `currentExperienceEntry`
is always the most recently pushed element of `experienceArray`). -/
def modifyLast (f : α → α) : List α → List α
  | [] => []
  | [a] => [f a]
  | a :: b :: rest => a :: modifyLast f (b :: rest)

/-- Source lines 79-149: the `positions.forEach` loop building
`experienceArray`.  `i` is the index of the next clock sample (line 94),
`lastCid` is `lastCompanyId`, `acc` is `experienceArray`.  The guard
`companyId === lastCompanyId && currentExperienceEntry` is
`some cid = lastCid ∧ acc ≠ []`. -/
def buildExperiences (σ : Nat → Int) : Nat → Option String → List ExperienceEntry →
    List Position → List ExperienceEntry
  | _, _, acc, [] => acc
  | i, lastCid, acc, pos :: rest =>
    let cid := cidOf pos
    let je := mkJobEntry (σ i) pos
    if some cid = lastCid ∧ acc ≠ [] then
      buildExperiences σ (i + 1) (some cid)
        (modifyLast (fun e => { e with jobs := e.jobs ++ [je] }) acc) rest
    else
      buildExperiences σ (i + 1) (some cid) (acc ++ [newEntry pos je]) rest

/-- The job entries of the positions `ps`, in order, entry `k` of the list
using the clock sample `σ (i + k)`. -/
def jobsFrom (σ : Nat → Int) : Nat → List Position → List JobEntry
  | _, [] => []
  | i, pos :: rest => mkJobEntry (σ i) pos :: jobsFrom σ (i + 1) rest

/-- Source line 156: `positions.filter(pos => !isExcludedPosition(pos))`. -/
def relevantPositions (ps : List Position) : List Position :=
  ps.filter (fun pos => ! isExcludedPosition pos)

/-- One iteration of the source's lines 162-178 loop body. -/
def earliestStep (now : Int) (acc : Option Int) (pos : Position) : Option Int :=
  match createDateFromPositionDate pos.start with
  | none => acc
  | some startDate =>
    let endDate := endMsOf now pos
    let jobDurationMonths : Rat := max 0 (((endDate : Rat) - (startDate : Rat)) / msPerMonth)
    if 7 ≤ jobDurationMonths then
      match acc with
      | none => some startDate
      | some e => if startDate < e then some startDate else acc
    else acc

/-- Source lines 159-178: the fold computing `earliestRelevantStartDate`
over the (already filtered) positions, with the single `now` of line 160. -/
def earliestRelevantStartDate (now : Int) (ps : List Position) : Option Int :=
  ps.foldl (earliestStep now) none

/-- Source lines 180-186: `years_of_experience`. -/
def yearsOfExperience (now : Int) (ps : List Position) : Int :=
  match earliestRelevantStartDate now (relevantPositions ps) with
  | some e => jsRound (((now : Rat) - (e : Rat)) / msPerYear)
  | none => 99

/-! ### `decodeURI` (ECMA-262 `Decode` with the `decodeURI` preserve set) -/

/-- Value of a hexadecimal digit character. -/
def hexVal (c : Char) : Option Nat :=
  if '0' ≤ c ∧ c ≤ '9' then some (c.toNat - 48)
  else if 'a' ≤ c ∧ c ≤ 'f' then some (c.toNat - 87)
  else if 'A' ≤ c ∧ c ≤ 'F' then some (c.toNat - 55)
  else none

/-- The byte of a two-hex-digit escape. -/
def hexByte (x y : Char) : Option Nat :=
  match hexVal x, hexVal y with
  | some a, some b => some (a * 16 + b)
  | _, _ => none

/-- A lexical token of a URI string: a plain character, or a `%XY` escape
carrying its original digits and its byte value. -/
inductive Tok
  | raw (c : Char)
  | esc (x y : Char) (b : Nat)
deriving DecidableEq, Repr

/-- Lex a character list into tokens; fails (URIError) on a `%` that is not
followed by two hexadecimal digits. -/
def tokenizeURI : List Char → Option (List Tok)
  | [] => some []
  | c :: rest =>
    if c = '%' then
      match rest with
      | x :: y :: rest2 =>
        match hexByte x y with
        | some b => (tokenizeURI rest2).map (fun ts => Tok.esc x y b :: ts)
        | none => none
      | _ => none
    else (tokenizeURI rest).map (fun ts => Tok.raw c :: ts)

/-- The characters whose escapes `decodeURI` leaves encoded:
`uriReserved` plus `#`. -/
def uriPreserve : List Char := [';', '/', '?', ':', '@', '&', '=', '+', '$', ',', '#']

/-- Is `b` a UTF-8 continuation byte? -/
def contByte (b : Nat) : Bool := 128 ≤ b && b ≤ 191

/-- Decode a token list: single-byte escapes of reserved characters are kept
verbatim, other escapes are decoded as UTF-8 (rejecting truncated,
overlong, surrogate and out-of-range sequences, as ECMA-262 does). -/
def decodeToks : List Tok → Option (List Char)
  | [] => some []
  | Tok.raw c :: rest => (decodeToks rest).map (fun l => c :: l)
  | Tok.esc x y b :: rest =>
    if b < 128 then
      if Char.ofNat b ∈ uriPreserve then
        (decodeToks rest).map (fun l => '%' :: x :: y :: l)
      else (decodeToks rest).map (fun l => Char.ofNat b :: l)
    else if 192 ≤ b ∧ b ≤ 223 then
      match rest with
      | Tok.esc _ _ b2 :: rest2 =>
        if contByte b2 then
          let cp := (b - 192) * 64 + (b2 - 128)
          if 128 ≤ cp then (decodeToks rest2).map (fun l => Char.ofNat cp :: l) else none
        else none
      | _ => none
    else if 224 ≤ b ∧ b ≤ 239 then
      match rest with
      | Tok.esc _ _ b2 :: Tok.esc _ _ b3 :: rest2 =>
        if contByte b2 && contByte b3 then
          let cp := (b - 224) * 4096 + (b2 - 128) * 64 + (b3 - 128)
          if 2048 ≤ cp ∧ ¬ (55296 ≤ cp ∧ cp ≤ 57343) then
            (decodeToks rest2).map (fun l => Char.ofNat cp :: l)
          else none
        else none
      | _ => none
    else if 240 ≤ b ∧ b ≤ 247 then
      match rest with
      | Tok.esc _ _ b2 :: Tok.esc _ _ b3 :: Tok.esc _ _ b4 :: rest2 =>
        if contByte b2 && contByte b3 && contByte b4 then
          let cp := (b - 240) * 262144 + (b2 - 128) * 4096 + (b3 - 128) * 64 + (b4 - 128)
          if 65536 ≤ cp ∧ cp ≤ 1114111 then
            (decodeToks rest2).map (fun l => Char.ofNat cp :: l)
          else none
        else none
      | _ => none
    else none

/-- JS `decodeURI`: `none` models a thrown `URIError`. -/
def decodeURIOpt (s : String) : Option String :=
  match tokenizeURI s.data with
  | none => none
  | some toks => (decodeToks toks).map (fun cs => String.mk cs)

/-! ### Keywords, languages, educations -/

/-- Insert the whitespace-separated tokens of `s` into the ordered
deduplicating keyword accumulator (the JS `Set` keeps first-insertion
order). -/
def addWords (acc : List String) (s : String) : List String :=
  (jsSplitWs s).foldl (fun a w => if w ∈ a then a else a ++ [w]) acc

/-- Source lines 42-73 and 119-125: the keyword set, in insertion order:
summary, headline, skill names, language names, then each position's title
and description. -/
def collectKeywords (profile : Profile) (ps : List Position) : List String :=
  let k : List String := []
  let k := match profile.summary with
    | some s => if s = "" then k else addWords k s
    | none => k
  let k := match profile.headline with
    | some s => if s = "" then k else addWords k s
    | none => k
  let k := match profile.skills with
    | some skills =>
      skills.foldl
        (fun a skill =>
          match skill.name with
          | some n => if n = "" then a else addWords a n
          | none => a) k
    | none => k
  let k := match profile.languages with
    | some langs =>
      langs.foldl
        (fun a language =>
          match language.name with
          | some n => if n = "" then a else addWords a n
          | none => a) k
    | none => k
  ps.foldl
    (fun a pos =>
      let a := match pos.title with
        | some t => if t = "" then a else addWords a t
        | none => a
      match pos.description with
      | some d => if d = "" then a else addWords a d
      | none => a) k

/-- `profile.supportedLocales[0]?.country`: a TypeError when the array is
absent, otherwise the country of its first element, if any. -/
def localeCountry (profile : Profile) : Except JSError (Option String) :=
  match profile.supportedLocales with
  | none => Except.error JSError.typeError
  | some locs => Except.ok ((locs.head?).bind Locale.country)

/-- Source lines 276-289: the joined language names when the profile lists
a non-empty `languages` array (JS `join` renders an absent name as the
empty string), with the locale-inferred "Français" / "English" pushes. -/
def languagesJoin (ls : List Named) (c : Option String) : String :=
  let names := ls.map Named.name
  let names :=
    if c = some "FR" ∧
        ¬ names.any (fun lang => lang = some "Français" ∨ lang = some "French") then
      names ++ [some "Français"]
    else names
  let names :=
    if (c = some "US" ∨ c = some "EN") ∧
        ¬ names.any (fun lang => lang = some "English") then
      names ++ [some "English"]
    else names
  String.intercalate ", " (names.map (fun o => o.getD ""))

/-- Source lines 292-302: the locale-only fallback when no languages are
listed. -/
def languagesFallback (c : Option String) : String :=
  if c = some "FR" then "Français"
  else if c = some "US" ∨ c = some "EN" then "English"
  else ""

/-- Source lines 274-303: the `output.languages` IIFE.  Every branch reads
`supportedLocales[0]`, so an absent `supportedLocales` is a TypeError on
every path. -/
def languagesOf (profile : Profile) : Except JSError String :=
  match profile.languages with
  | some ls =>
    if ls.length > 0 then
      match localeCountry profile with
      | Except.error e => Except.error e
      | Except.ok c => Except.ok (languagesJoin ls c)
    else
      match localeCountry profile with
      | Except.error e => Except.error e
      | Except.ok c => Except.ok (languagesFallback c)
  | none =>
    match localeCountry profile with
    | Except.error e => Except.error e
    | Except.ok c => Except.ok (languagesFallback c)

/-- Source lines 221-261: one cleaned education entry, or `none` when it
has neither a degree string nor a school name. -/
def mkEducationEntry (edu : Education) : Option EducationEntry :=
  let startYear : Option Int :=
    match edu.start with
    | some sd => match sd.year with
      | some y => if y = 0 then none else some y
      | none => none
    | none => none
  let endYear : Option Int :=
    match edu.«end» with
    | some ed => match ed.year with
      | some y => if y = 0 then none else some y
      | none => none
    | none => none
  let dateStr : String :=
    match startYear, endYear with
    | some s, some e => toString s ++ " - " ++ toString e
    | some s, none => "Depuis " ++ toString s
    | none, some e => "Jusqu\x27à " ++ toString e
    | none, none => ""
  let degree := strOr edu.degree ""
  let fieldOfStudy := strOr edu.fieldOfStudy ""
  let degreeStr : String :=
    if degree ≠ "" ∧ fieldOfStudy ≠ "" then degree ++ ", " ++ fieldOfStudy
    else if degree ≠ "" then degree
    else if fieldOfStudy ≠ "" then fieldOfStudy
    else ""
  let school := strOr edu.schoolName ""
  if degreeStr ≠ "" ∨ school ≠ "" then
    some { date := if dateStr = "" then none else some dateStr
           degree := if degreeStr = "" then none else some degreeStr
           school := school }
  else none

/-! ### `processProfile` -/

/-- The `output` record of `processProfile` (source lines 38-333), given the
already-computed values of its three fallible subcomputations: the
`languages` string (lines 274-303) and the two `decodeURI` results
(lines 319-320; their `|| ''` defaults are the identity, since a falsy
decode result is the empty string already). -/
def mkOutput (σ : Nat → Int) (profile : Profile) (languages pubId url : String) : Output :=
  let positions := profile.position.getD []
  let experiences := buildExperiences σ 0 none [] positions
  let now := σ positions.length
  let currentPosition :=
    positions.find? (fun pos =>
      match pos.«end» with
      | none => true
      | some e => match e.year with
        | none => true
        | some y => y = 0)
  let jobTitles := (relevantPositions positions).filterMap (fun pos =>
    match pos.title with
    | some t => if t = "" then none else some t
    | none => none)
  let industries := (relevantPositions positions).filterMap (fun pos =>
    match pos.companyIndustry with
    | some t => if t = "" then none else some t
    | none => none)
  let educationsArray := match profile.educations with
    | some edus => edus.filterMap mkEducationEntry
    | none => []
  { linkedin_public_identifier := profile.linkedin_public_identifier
    experiences := experiences
    years_of_experience := yearsOfExperience now positions
    keywords := String.intercalate " " (collectKeywords profile positions)
    current_industry := match currentPosition with
      | some pos => strOr pos.companyIndustry ""
      | none => ""
    current_job_title := match currentPosition with
      | some pos => strOr pos.title ""
      | none => ""
    current_company := match currentPosition with
      | some pos => strOr pos.companyName ""
      | none => ""
    current_employment_type := match currentPosition with
      | some pos => strOr pos.employmentType ""
      | none => ""
    current_company_employee_range := match currentPosition with
      | some pos => strOr pos.companyStaffCountRange ""
      | none => ""
    job_titles := String.intercalate ", " jobTitles
    industries_tag := String.intercalate ", " industries
    educations := educationsArray
    firstname := strOr profile.firstName ""
    lastname := strOr profile.lastName ""
    profile_pic := strOr profile.profilePicture ""
    spotlight := if profile.isOpenToWork = some true then "Open to work" else ""
    is_open_to_work := profile.isOpenToWork.getD false
    is_hiring := profile.isHiring.getD false
    about := strOr profile.summary ""
    languages := languages
    skills := match profile.skills with
      | some sk => some { skills := sk.map Named.name, details := sk }
      | none => none
    headline := strOr profile.headline ""
    current_employment_duration := match experiences.head? with
      | some e => match e.jobs.head? with
        | some j => j.duration
        | none => 0
      | none => 0
    degrees :=
      if educationsArray.length > 0 then
        String.intercalate ", " (educationsArray.map (fun el => el.degree.getD ""))
      else ""
    schools :=
      if educationsArray.length > 0 then
        String.intercalate ", " (educationsArray.map (fun el => el.school))
      else ""
    companies := String.intercalate "," (experiences.map ExperienceEntry.company)
    public_linkedin_identifier := pubId
    linkedin_url := url
    urn := profile.urn
    location := match profile.geo with
      | some g => strOr g.full ""
      | none => ""
    profil_details := profile }

/-- Source lines 38-333, `processProfile`, over the clock stream `σ`.
The three fallible steps run in source order: the `languages` IIFE
(line 274, TypeError on an absent `supportedLocales`), then
`decodeURI(profile.username)` (line 319) and
`decodeURI("https://linkedin.com/in/" + profile.username)` (line 320),
both URIError on malformed percent-encoding.  JS coerces an `undefined`
username to the string `"undefined"` in both places. -/
def processProfile (σ : Nat → Int) (profile : Profile) : Except JSError Output :=
  match languagesOf profile with
  | Except.error e => Except.error e
  | Except.ok languages =>
    match decodeURIOpt (profile.username.getD "undefined") with
    | none => Except.error JSError.uriError
    | some pubId =>
      match decodeURIOpt ("https://linkedin.com/in/" ++ profile.username.getD "undefined") with
      | none => Except.error JSError.uriError
      | some url => Except.ok (mkOutput σ profile languages pubId url)

/-! ### Spec-side definitions

These definitions follow the wording of the specification (and of the
amended claims); the theorems below relate them to the source-shaped
definitions above. -/

/-- Spec-side grouping, continuation: `cur` is the open group, `curCid` the
company id of the immediately preceding position.  A position joins `cur`
exactly when its defaulted company id equals `curCid`; otherwise `cur` is
emitted and a new group carrying the position's employer metadata starts. -/
def groupGoSpec (σ : Nat → Int) : Nat → ExperienceEntry → String → List Position →
    List ExperienceEntry
  | _, cur, _, [] => [cur]
  | i, cur, curCid, pos :: rest =>
    let cid := cidOf pos
    let je := mkJobEntry (σ i) pos
    if cid = curCid then
      groupGoSpec σ (i + 1) { cur with jobs := cur.jobs ++ [je] } cid rest
    else
      cur :: groupGoSpec σ (i + 1) (newEntry pos je) cid rest

/-- Spec-side grouping: partition the positions into maximal runs of
adjacent positions with equal defaulted company ids, one group per run,
carrying the run's first position's employer metadata. -/
def groupPositionsSpec (σ : Nat → Int) (i : Nat) : List Position → List ExperienceEntry
  | [] => []
  | pos :: rest =>
    groupGoSpec σ (i + 1) (newEntry pos (mkJobEntry (σ i) pos)) (cidOf pos) rest

/-- The number of adjacent pairs of positions whose defaulted company ids
differ (the group boundaries of the adjacency partition). -/
def cidBoundaries (ps : List Position) : Nat :=
  (ps.zip ps.tail).countP (fun pq => cidOf pq.1 ≠ cidOf pq.2)

/-- Spec-side: does a position qualify for the seniority calculation?
Start date resolves and the duration — end date (or `now`) minus start, in
30-day months, floored at 0 — is at least 7 months. -/
def startIfQualifies (now : Int) (pos : Position ) : Option Int :=
  match createDateFromPositionDate pos.start with
  | none => none
  | some s =>
    if 7 ≤ max 0 (((endMsOf now pos : Rat) - (s : Rat)) / msPerMonth) then some s else none

/-- Spec-side: the start dates of the non-excluded positions that qualify
for the seniority calculation. -/
def seniorityStarts (now : Int) (ps : List Position) : List Int :=
  (relevantPositions ps).filterMap (startIfQualifies now)

/-- The minimum of a list of integers, `none` when empty. -/
def listMin : List Int → Option Int
  | [] => none
  | x :: xs =>
    some (match listMin xs with
      | none => x
      | some m => min x m)

/-- Spec-side `years_of_experience`: take the earliest qualifying start
date; if it exists, `round((now - earliest) / 365.25 days)`, otherwise the
sentinel 99. -/
def yearsOfExperienceSpec (now : Int) (ps : List Position) : Int :=
  match listMin (seniorityStarts now ps) with
  | some e => jsRound (((now : Rat) - (e : Rat)) / msPerYear)
  | none => 99

/-- Spec-side (amended claim C2) exclusion predicate: `employmentType`
contains "intern" or "volunteer", or `title` contains "stagiaire" or
"bénévole", case-insensitively, by substring containment. -/
def excludedSpecAmended (pos : Position) : Bool :=
  (["intern", "volunteer"].any (fun sub =>
      jsIncludes (jsToLower (pos.employmentType.getD "")) sub)) ||
  (["stagiaire", "bénévole"].any (fun sub =>
      jsIncludes (jsToLower (pos.title.getD "")) sub))

/-- The exclusion predicate claim C2 states (each of the four substrings
matched against both fields). -/
def excludedClaimC2 (pos : Position) : Bool :=
  ["intern", "stagiaire", "volunteer", "bénévole"].any (fun sub =>
    jsIncludes (jsToLower (pos.employmentType.getD "")) sub ||
    jsIncludes (jsToLower (pos.title.getD "")) sub)

/-- Spec-side (amended claim C3) date range of one position: empty when no
start date resolves; otherwise the formatted start, " - ", and either the
formatted end date when it reconstructs to an instant strictly before
`now`, or "Present" when the end date is absent, unreconstructable, or not
before `now`. -/
def dateRangeSpec (now : Int) (pos : Position) : String :=
  match createDateFromPositionDate pos.start with
  | none => ""
  | some s =>
    match pos.«end» with
    | none => fmtMonthYear s ++ " - " ++ "Present"
    | some pd =>
      match createDateFromPositionDate (some pd) with
      | none => fmtMonthYear s ++ " - " ++ "Present"
      | some e =>
        if e < now then fmtMonthYear s ++ " - " ++ fmtMonthYear e
        else fmtMonthYear s ++ " - " ++ "Present"

/-- The date ranges of the positions `ps`, position `k` of the list using
the clock sample `σ (i + k)`. -/
def dateRangesSpec (σ : Nat → Int) : Nat → List Position → List String
  | _, [] => []
  | i, pos :: rest => dateRangeSpec (σ i) pos :: dateRangesSpec σ (i + 1) rest

/-- Auxiliary boundary count: the number of positions of `ps` whose
defaulted company id differs from their predecessor's, the predecessor of
the first one having company id `c`. -/
def countB (c : String) : List Position → Nat
  | [] => 0
  | pos :: rest => (if cidOf pos = c then 0 else 1) + countB (cidOf pos) rest

/-- Merge a running optional minimum with another optional minimum. -/
def mergeMin : Option Int → Option Int → Option Int
  | none, m => m
  | some x, none => some x
  | some x, some y => some (min x y)

/-- The company id of the position preceding the rest of the walk: `c`
when `xs` is empty, the last element's id otherwise. -/
def lastCidAux (c : String) : List Position → String
  | [] => c
  | p :: rest => lastCidAux (cidOf p) rest

/-! ### Concrete inputs used by witnesses and counterexamples -/

/-- A frozen clock: every `new Date()` sample is the epoch. -/
def clockZero : Nat → Int := fun _ => 0

/-- The empty profile: every field absent. -/
def profEmpty : Profile := {}

/-- A minimal profile whose `supportedLocales` is present (empty array). -/
def profMin : Profile := { supportedLocales := some [] }

/-- A position whose title contains "intern" but whose employment type is
absent. -/
def posC2 : Position := { title := some "intern" }

def posA1 : Position := { companyId := some "A", title := some "Eng" }

def posA2 : Position := { companyId := some "A", title := some "Sr Eng" }

def posB1 : Position := { companyId := some "B", title := some "Lead" }

/-- The grouping example profile of the spec. -/
def prof6 : Profile :=
  { position := some [posA1, posA2, posB1]
    supportedLocales := some [] }

/-- A position with a resolvable start (2020) and a resolvable end (2100)
that lies in the future relative to the year-2024 clock. -/
def posC3 : Position :=
  { start := some { year := some 2020 }
    «end» := some { year := some 2100 } }

def profC3 : Profile :=
  { position := some [posC3]
    supportedLocales := some [] }

/-- A frozen clock at 2024-01-01. -/
def clock24 : Nat → Int := fun _ => mkDateMs 2024 0 1

/-- A one-year position lying entirely in the future relative to the epoch
clock. -/
def posFut : Position :=
  { start := some { year := some 2030 }
    «end» := some { year := some 2031 } }

def profFut : Profile :=
  { position := some [posFut]
    supportedLocales := some [] }

/-- A current position (no end date) started in 2019. -/
def pos2019 : Position := { start := some { year := some 2019 } }

def profW : Profile :=
  { position := some [pos2019]
    supportedLocales := some [] }

/-- A frozen clock at 2020-07-01. -/
def clockW : Nat → Int := fun _ => mkDateMs 2020 6 1

def profC5 : Profile :=
  { position := some [pos2019]
    supportedLocales := some [] }

/-- Clock for C5: every sample is 2020-07-01. -/
def clockC5a : Nat → Int := fun _ => mkDateMs 2020 6 1

/-- Clock for C5: first sample 2020-07-01, later samples 2040-07-01.  It
agrees with `clockC5a` at index 0. -/
def clockC5b : Nat → Int := fun i => if i = 0 then mkDateMs 2020 6 1 else mkDateMs 2040 6 1

def clockC5w : Nat → Int := fun _ => 5

def clockC5w2 : Nat → Int := fun j => if j = 0 then 5 else 77

/-- A profile whose username is an invalid percent-escape and whose
`supportedLocales` is absent. -/
def profC9 : Profile := { username := some "%" }

/-- A profile with a decodable username and `supportedLocales` present. -/
def profV : Profile :=
  { username := some "john%20doe"
    supportedLocales := some [] }

/-- Two consecutive positions with no `companyId` and different company
names. -/
def posN1 : Position := { companyName := some "Acme" }

def posN2 : Position := { companyName := some "Globex" }

def profC10 : Profile :=
  { position := some [posN1, posN2]
    supportedLocales := some [] }

deriving instance DecidableEq for Except

/-! ### Grouping lemmas -/

theorem modifyLast_append_singleton (f : α → α) (acc : List α) (e : α) :
    modifyLast f (acc ++ [e]) = acc ++ [f e] := by
  induction acc with
  | nil => rfl
  | cons a rest ih =>
    cases rest with
    | nil => rfl
    | cons b rest2 => simpa [modifyLast] using ih

theorem buildExperiences_go (σ : Nat → Int) (ps : List Position) :
    ∀ (i : Nat) (c : String) (acc : List ExperienceEntry) (e : ExperienceEntry),
      buildExperiences σ i (some c) (acc ++ [e]) ps = acc ++ groupGoSpec σ i e c ps := by
  induction ps with
  | nil => intro i c acc e; simp [buildExperiences, groupGoSpec]
  | cons pos rest ih =>
    intro i c acc e
    rw [buildExperiences, groupGoSpec]
    by_cases h : cidOf pos = c
    · subst h
      rw [if_pos ⟨rfl, by simp⟩, if_pos rfl, modifyLast_append_singleton]
      exact ih (i + 1) (cidOf pos) acc _
    · rw [if_neg (by simp [h]), if_neg h]
      rw [ih (i + 1) (cidOf pos) (acc ++ [e]) (newEntry pos (mkJobEntry (σ i) pos))]
      simp

/-- The source's accumulator fold equals the spec-side adjacency grouping. -/
theorem buildExperiences_eq (σ : Nat → Int) (i : Nat) (ps : List Position) :
    buildExperiences σ i none [] ps = groupPositionsSpec σ i ps := by
  cases ps with
  | nil => rfl
  | cons pos rest =>
    rw [buildExperiences, groupPositionsSpec]
    have hcond : ¬ (some (cidOf pos) = (none : Option String) ∧ ([] : List ExperienceEntry) ≠ []) := by
      simp
    simp only [hcond, if_neg, not_false_iff]
    simpa using buildExperiences_go σ rest (i + 1) (cidOf pos) []
      (newEntry pos (mkJobEntry (σ i) pos))

theorem groupGoSpec_join (σ : Nat → Int) (ps : List Position) :
    ∀ (i : Nat) (cur : ExperienceEntry) (c : String),
      ((groupGoSpec σ i cur c ps).map ExperienceEntry.jobs).flatten =
        cur.jobs ++ jobsFrom σ i ps := by
  induction ps with
  | nil => intro i cur c; simp [groupGoSpec, jobsFrom]
  | cons pos rest ih =>
    intro i cur c
    rw [groupGoSpec, jobsFrom]
    by_cases h : cidOf pos = c
    · rw [if_pos h]
      rw [ih (i + 1) { cur with jobs := cur.jobs ++ [mkJobEntry (σ i) pos] } (cidOf pos)]
      simp
    · rw [if_neg h]
      simp only [List.map_cons, List.flatten_cons]
      rw [ih (i + 1) (newEntry pos (mkJobEntry (σ i) pos)) (cidOf pos)]
      simp [newEntry]

/-- Each position contributes exactly one job entry, in the original
order: flattening the groups' job lists recovers the per-position job
entries. -/
theorem groupPositionsSpec_join (σ : Nat → Int) (i : Nat) (ps : List Position) :
    ((groupPositionsSpec σ i ps).map ExperienceEntry.jobs).flatten = jobsFrom σ i ps := by
  cases ps with
  | nil => rfl
  | cons pos rest =>
    rw [groupPositionsSpec, jobsFrom]
    rw [groupGoSpec_join σ rest (i + 1) (newEntry pos (mkJobEntry (σ i) pos)) (cidOf pos)]
    simp [newEntry]

theorem groupGoSpec_length (σ : Nat → Int) (ps : List Position) :
    ∀ (i : Nat) (cur : ExperienceEntry) (c : String),
      (groupGoSpec σ i cur c ps).length = 1 + countB c ps := by
  induction ps with
  | nil => intro i cur c; simp [groupGoSpec, countB]
  | cons pos rest ih =>
    intro i cur c
    rw [groupGoSpec, countB]
    by_cases h : cidOf pos = c
    · rw [if_pos h, if_pos h, ih (i + 1) _ (cidOf pos)]
      simp
    · rw [if_neg h, if_neg h]
      simp only [List.length_cons, ih (i + 1) _ (cidOf pos)]
      omega

theorem countB_eq_cidBoundaries (rest : List Position) :
    ∀ pos : Position, countB (cidOf pos) rest = cidBoundaries (pos :: rest) := by
  induction rest with
  | nil => intro pos; simp [countB, cidBoundaries]
  | cons q rest2 ih =>
    intro pos
    rw [countB, ih q]
    show _ = cidBoundaries (pos :: q :: rest2)
    unfold cidBoundaries
    simp only [List.tail_cons, List.zip_cons_cons, List.countP_cons]
    by_cases h : cidOf q = cidOf pos
    · rw [if_pos h]
      simp [h]
    · rw [if_neg h]
      have : (decide (cidOf pos ≠ cidOf q)) = true := by
        simp only [decide_eq_true_eq, Ne]
        exact fun hh => h (Eq.symm hh)
      simp only [this, if_true]
      omega

/-- The number of experience groups is one more than the number of
adjacent company-id boundaries (zero for no positions). -/
theorem groupPositionsSpec_length (σ : Nat → Int) (i : Nat) (ps : List Position) :
    (groupPositionsSpec σ i ps).length =
      if ps.isEmpty then 0 else 1 + cidBoundaries ps := by
  cases ps with
  | nil => rfl
  | cons pos rest =>
    rw [groupPositionsSpec]
    rw [groupGoSpec_length σ rest (i + 1) _ (cidOf pos), countB_eq_cidBoundaries rest pos]
    simp

/-! ### Run-absorption and decomposition lemmas (for C10) -/

theorem entry_jobs_append_nil (e : ExperienceEntry) : { e with jobs := e.jobs ++ [] } = e := by
  cases e
  simp

theorem jobsFrom_append (σ : Nat → Int) (a : List Position) :
    ∀ (i : Nat) (b : List Position),
      jobsFrom σ i (a ++ b) = jobsFrom σ i a ++ jobsFrom σ (i + a.length) b := by
  induction a with
  | nil => intro i b; simp [jobsFrom]
  | cons pos rest ih =>
    intro i b
    rw [List.cons_append, jobsFrom, jobsFrom, ih (i + 1) b, List.cons_append]
    have : i + 1 + rest.length = i + (rest.length + 1) := by omega
    rw [this]
    rfl

theorem takeWhile_append_of_all {α : Type} (p : α → Bool) (xs ys : List α)
    (h : ∀ x ∈ xs, p x = true) : (xs ++ ys).takeWhile p = xs ++ ys.takeWhile p := by
  induction xs with
  | nil => simp
  | cons x xs2 ih =>
    rw [List.cons_append, List.takeWhile_cons_of_pos (h x (List.mem_cons_self x xs2)),
      ih (fun x2 hx2 => h x2 (List.mem_cons_of_mem x hx2)), List.cons_append]

theorem dropWhile_append_of_all {α : Type} (p : α → Bool) (xs ys : List α)
    (h : ∀ x ∈ xs, p x = true) : (xs ++ ys).dropWhile p = ys.dropWhile p := by
  induction xs with
  | nil => simp
  | cons x xs2 ih =>
    rw [List.cons_append, List.dropWhile_cons_of_pos (h x (List.mem_cons_self x xs2)),
      ih (fun x2 hx2 => h x2 (List.mem_cons_of_mem x hx2))]

theorem groupGoSpec_nil (σ : Nat → Int) (i : Nat) (cur : ExperienceEntry) (c : String) :
    groupGoSpec σ i cur c [] = [cur] := rfl

theorem groupGoSpec_cons (σ : Nat → Int) (i : Nat) (cur : ExperienceEntry) (c : String)
    (pos : Position) (rest : List Position) :
    groupGoSpec σ i cur c (pos :: rest) =
      if cidOf pos = c then
        groupGoSpec σ (i + 1) { cur with jobs := cur.jobs ++ [mkJobEntry (σ i) pos] }
          (cidOf pos) rest
      else
        cur :: groupGoSpec σ (i + 1) (newEntry pos (mkJobEntry (σ i) pos)) (cidOf pos) rest := rfl

theorem groupPositionsSpec_cons (σ : Nat → Int) (i : Nat) (pos : Position)
    (rest : List Position) :
    groupPositionsSpec σ i (pos :: rest) =
      groupGoSpec σ (i + 1) (newEntry pos (mkJobEntry (σ i) pos)) (cidOf pos) rest := rfl

theorem takeWhile_cons_pos (p : Position → Bool) (x : Position) (l : List Position)
    (h : p x = true) : (x :: l).takeWhile p = x :: l.takeWhile p := by
  simp [List.takeWhile_cons, h]

theorem takeWhile_cons_neg (p : Position → Bool) (x : Position) (l : List Position)
    (h : p x = false) : (x :: l).takeWhile p = [] := by
  simp [List.takeWhile_cons, h]

theorem dropWhile_cons_pos (p : Position → Bool) (x : Position) (l : List Position)
    (h : p x = true) : (x :: l).dropWhile p = l.dropWhile p := by
  simp [List.dropWhile_cons, h]

theorem dropWhile_cons_neg (p : Position → Bool) (x : Position) (l : List Position)
    (h : p x = false) : (x :: l).dropWhile p = x :: l := by
  simp [List.dropWhile_cons, h]

/-- Absorption: `groupGoSpec` extends the open group with the longest
prefix of positions whose company id equals `c`, then groups the rest. -/
theorem groupGoSpec_span (σ : Nat → Int) (ps : List Position) :
    ∀ (i : Nat) (cur : ExperienceEntry) (c : String),
      groupGoSpec σ i cur c ps =
        { cur with jobs := cur.jobs ++
            jobsFrom σ i (ps.takeWhile (fun p => cidOf p = c)) } ::
          groupPositionsSpec σ (i + (ps.takeWhile (fun p => cidOf p = c)).length)
            (ps.dropWhile (fun p => cidOf p = c)) := by
  induction ps with
  | nil =>
    intro i cur c
    rw [groupGoSpec_nil]
    show _ = { cur with jobs := cur.jobs ++ jobsFrom σ i [] } :: groupPositionsSpec σ (i + 0) []
    rw [jobsFrom, List.append_nil]
    rfl
  | cons pos rest ih =>
    intro i cur c
    rw [groupGoSpec_cons]
    by_cases h : cidOf pos = c
    · subst h
      rw [if_pos rfl]
      rw [ih (i + 1) _ (cidOf pos)]
      rw [takeWhile_cons_pos (fun p => cidOf p = cidOf pos) pos rest (by simp)]
      rw [dropWhile_cons_pos (fun p => cidOf p = cidOf pos) pos rest (by simp)]
      have hjobs : cur.jobs ++ jobsFrom σ i
            (pos :: rest.takeWhile (fun p => cidOf p = cidOf pos)) =
          cur.jobs ++ [mkJobEntry (σ i) pos] ++
            jobsFrom σ (i + 1) (rest.takeWhile (fun p => cidOf p = cidOf pos)) := by
        rw [jobsFrom, List.append_assoc]
        rfl
      rw [hjobs]
      have hlen : i + (pos :: rest.takeWhile (fun p => cidOf p = cidOf pos)).length =
          i + 1 + (rest.takeWhile (fun p => cidOf p = cidOf pos)).length := by
        rw [List.length_cons]
        omega
      rw [hlen]
    · rw [if_neg h]
      rw [takeWhile_cons_neg (fun p => cidOf p = c) pos rest (by simp [h])]
      rw [dropWhile_cons_neg (fun p => cidOf p = c) pos rest (by simp [h])]
      rw [jobsFrom, List.append_nil]
      show _ = { cur with jobs := cur.jobs } :: groupPositionsSpec σ (i + 0) (pos :: rest)
      rw [groupPositionsSpec_cons]
      rfl

theorem lastCidAux_getLast : ∀ (xs : List Position) (c : String) (q : Position),
    xs.getLast? = some q → lastCidAux c xs = cidOf q := by
  intro xs
  induction xs with
  | nil => intro c q h; exact absurd h (by simp)
  | cons p rest ih =>
    intro c q h
    cases rest with
    | nil =>
      have : p = q := by simpa using h
      rw [lastCidAux, lastCidAux, this]
    | cons r rest2 =>
      rw [List.getLast?_cons_cons] at h
      rw [lastCidAux]
      exact ih (cidOf p) q h

/-- Decomposition: when the first position of `ys` starts a new group (its
company id differs from the id of the last position before it), grouping
`xs ++ ys` is grouping `xs` followed by grouping `ys`. -/
theorem groupGoSpec_append (σ : Nat → Int) (ys : List Position) :
    ∀ (xs : List Position) (i : Nat) (cur : ExperienceEntry) (c : String),
      (∀ y0, ys.head? = some y0 → cidOf y0 ≠ lastCidAux c xs) →
      groupGoSpec σ i cur c (xs ++ ys) =
        groupGoSpec σ i cur c xs ++ groupPositionsSpec σ (i + xs.length) ys := by
  intro xs
  induction xs with
  | nil =>
    intro i cur c hy
    cases ys with
    | nil => rw [List.append_nil, groupGoSpec_nil]; rfl
    | cons y0 ys2 =>
      have hne : cidOf y0 ≠ c := hy y0 rfl
      show groupGoSpec σ i cur c (y0 :: ys2) = _
      rw [groupGoSpec_cons, if_neg hne, groupGoSpec_nil]
      show _ = [cur] ++ groupPositionsSpec σ (i + 0) (y0 :: ys2)
      rw [groupPositionsSpec_cons]
      rfl
  | cons x xs2 ih =>
    intro i cur c hy
    have hy2 : ∀ y0, ys.head? = some y0 → cidOf y0 ≠ lastCidAux (cidOf x) xs2 := by
      intro y0 h0
      exact hy y0 h0
    rw [List.cons_append, groupGoSpec_cons, groupGoSpec_cons]
    by_cases h : cidOf x = c
    · rw [if_pos h, if_pos h, ih (i + 1) _ (cidOf x) hy2]
      have : i + 1 + xs2.length = i + (xs2.length + 1) := by omega
      rw [this]
      rfl
    · rw [if_neg h, if_neg h, ih (i + 1) _ (cidOf x) hy2]
      have : i + 1 + xs2.length = i + (xs2.length + 1) := by omega
      rw [this]
      rfl

/-- Decomposition at a group boundary, top-level version. -/
theorem groupPositionsSpec_append (σ : Nat → Int) (pre ys : List Position) (i : Nat)
    (hb : pre = [] ∨ ∀ y0 q, ys.head? = some y0 → pre.getLast? = some q → cidOf y0 ≠ cidOf q) :
    groupPositionsSpec σ i (pre ++ ys) =
      groupPositionsSpec σ i pre ++ groupPositionsSpec σ (i + pre.length) ys := by
  cases pre with
  | nil => simp [groupPositionsSpec]
  | cons p0 pre2 =>
    rcases hb with hb | hb
    · exact absurd hb (by simp)
    · rw [List.cons_append, groupPositionsSpec_cons, groupPositionsSpec_cons]
      have hq : ∃ q, (p0 :: pre2).getLast? = some q := by
        cases h2 : (p0 :: pre2).getLast? with
        | none => exact absurd h2 (by simp)
        | some q => exact ⟨q, rfl⟩
      obtain ⟨q, hq⟩ := hq
      have hy : ∀ y0, ys.head? = some y0 → cidOf y0 ≠ lastCidAux (cidOf p0) pre2 := by
        intro y0 h0
        have hl : lastCidAux (cidOf p0) pre2 = cidOf q := by
          cases pre2 with
          | nil =>
            have hpq : p0 = q := by simpa using hq
            rw [lastCidAux, hpq]
          | cons r rest2 =>
            rw [List.getLast?_cons_cons] at hq
            exact lastCidAux_getLast (r :: rest2) (cidOf p0) q hq
        rw [hl]
        exact hb y0 q h0 hq
      rw [groupGoSpec_append σ ys pre2 (i + 1) _ (cidOf p0) hy]
      have : i + 1 + pre2.length = i + (pre2.length + 1) := by omega
      rw [this]
      rfl

/-! ### Clock-dependence lemmas -/

theorem buildExperiences_congr (σ σ2 : Nat → Int) (ps : List Position) :
    ∀ (i : Nat) (lastCid : Option String) (acc : List ExperienceEntry),
      (∀ j, j < ps.length → σ (i + j) = σ2 (i + j)) →
      buildExperiences σ i lastCid acc ps = buildExperiences σ2 i lastCid acc ps := by
  induction ps with
  | nil => intro i lastCid acc _; rfl
  | cons pos rest ih =>
    intro i lastCid acc hσ
    have h0 : σ i = σ2 i := by simpa using hσ 0 (by simp)
    have hrest : ∀ j, j < rest.length → σ (i + 1 + j) = σ2 (i + 1 + j) := by
      intro j hj
      have := hσ (j + 1) (by simpa using Nat.succ_lt_succ hj)
      simpa [Nat.add_comm, Nat.add_left_comm, Nat.add_assoc] using this
    rw [buildExperiences, buildExperiences, h0]
    by_cases hc : some (cidOf pos) = lastCid ∧ acc ≠ []
    · rw [if_pos hc, if_pos hc, ih (i + 1) _ _ hrest]
    · rw [if_neg hc, if_neg hc, ih (i + 1) _ _ hrest]

theorem mkOutput_congr (σ σ2 : Nat → Int) (profile : Profile) (l a b : String)
    (h : ∀ j, j ≤ (profile.position.getD []).length → σ j = σ2 j) :
    mkOutput σ profile l a b = mkOutput σ2 profile l a b := by
  have hexp : buildExperiences σ 0 none [] (profile.position.getD []) =
      buildExperiences σ2 0 none [] (profile.position.getD []) := by
    apply buildExperiences_congr
    intro j hj
    exact h (0 + j) (by omega)
  have hnow : σ (profile.position.getD []).length = σ2 (profile.position.getD []).length :=
    h _ le_rfl
  simp only [mkOutput, hexp, hnow]

/-- `processProfile` reads the clock only at indices `0 .. positions.length`
(one sample per position for the experience loop, one final sample for the
seniority computation). -/
theorem processProfile_congr (σ σ2 : Nat → Int) (profile : Profile)
    (h : ∀ j, j ≤ (profile.position.getD []).length → σ j = σ2 j) :
    processProfile σ profile = processProfile σ2 profile := by
  rw [processProfile, processProfile]
  cases hl : languagesOf profile with
  | error e => rfl
  | ok l =>
    cases hd : decodeURIOpt (profile.username.getD "undefined") with
    | none => rfl
    | some pubId =>
      cases hd2 : decodeURIOpt ("https://linkedin.com/in/" ++ profile.username.getD "undefined") with
      | none => rfl
      | some url => exact congrArg Except.ok (mkOutput_congr σ σ2 profile l pubId url h)

/-! ### Seniority lemmas -/

theorem earliestStep_none_of_not_qualifies (now : Int) (pos : Position) (acc : Option Int)
    (h : startIfQualifies now pos = none) : earliestStep now acc pos = acc := by
  unfold startIfQualifies at h
  unfold earliestStep
  cases hs : createDateFromPositionDate pos.start with
  | none => rfl
  | some s =>
    rw [hs] at h
    simp only at h
    by_cases hq : (7 : Rat) ≤ max 0 (((endMsOf now pos : Rat) - (s : Rat)) / msPerMonth)
    · rw [if_pos hq] at h; exact absurd h (by simp)
    · simp only [if_neg hq]

theorem earliestStep_some_of_qualifies (now : Int) (pos : Position) (acc : Option Int) (s : Int)
    (h : startIfQualifies now pos = some s) : earliestStep now acc pos = mergeMin acc (some s) := by
  unfold startIfQualifies at h
  unfold earliestStep
  cases hs : createDateFromPositionDate pos.start with
  | none => rw [hs] at h; exact absurd h (by simp)
  | some s2 =>
    rw [hs] at h
    simp only at h
    by_cases hq : (7 : Rat) ≤ max 0 (((endMsOf now pos : Rat) - (s2 : Rat)) / msPerMonth)
    · rw [if_pos hq] at h
      have hss : s2 = s := by simpa using h
      subst hss
      simp only [if_pos hq]
      cases acc with
      | none => rfl
      | some e =>
        simp only [mergeMin]
        by_cases hlt : s2 < e
        · rw [if_pos hlt]
          have : min e s2 = s2 := by omega
          rw [this]
        · rw [if_neg hlt]
          have : min e s2 = e := by omega
          rw [this]
    · rw [if_neg hq] at h; exact absurd h (by simp)

theorem earliestStep_fold (now : Int) (l : List Position) :
    ∀ acc : Option Int,
      l.foldl (earliestStep now) acc =
        mergeMin acc (listMin (l.filterMap (startIfQualifies now))) := by
  induction l with
  | nil =>
    intro acc
    cases acc <;> rfl
  | cons pos rest ih =>
    intro acc
    rw [List.foldl_cons, ih (earliestStep now acc pos)]
    cases hq : startIfQualifies now pos with
    | none =>
      rw [earliestStep_none_of_not_qualifies now pos acc hq]
      rw [List.filterMap_cons_none hq]
    | some s =>
      rw [earliestStep_some_of_qualifies now pos acc s hq]
      rw [List.filterMap_cons, hq]
      cases acc with
      | none =>
        cases hr : listMin (rest.filterMap (startIfQualifies now)) <;>
          simp [mergeMin, listMin, hr]
      | some e =>
        cases hr : listMin (rest.filterMap (startIfQualifies now)) with
        | none => simp [mergeMin, listMin, hr]
        | some m =>
          simp only [mergeMin, listMin, hr]
          rw [min_assoc]

/-- The source's running-minimum fold equals the spec-side minimum of the
qualifying start dates. -/
theorem earliestRelevantStartDate_eq (now : Int) (ps : List Position) :
    earliestRelevantStartDate now (relevantPositions ps) = listMin (seniorityStarts now ps) := by
  rw [earliestRelevantStartDate, earliestStep_fold now (relevantPositions ps) none]
  rw [seniorityStarts]
  cases listMin ((relevantPositions ps).filterMap (startIfQualifies now)) <;> rfl

/-- Source `years_of_experience` equals the spec-side formulation. -/
theorem yearsOfExperience_eq_spec (now : Int) (ps : List Position) :
    yearsOfExperience now ps = yearsOfExperienceSpec now ps := by
  rw [yearsOfExperience, yearsOfExperienceSpec, earliestRelevantStartDate_eq]

theorem listMin_mem : ∀ {l : List Int} {m : Int}, listMin l = some m → m ∈ l := by
  intro l
  induction l with
  | nil => intro m h; exact absurd h (by simp [listMin])
  | cons x xs ih =>
    intro m h
    rw [listMin] at h
    cases hx : listMin xs with
    | none =>
      rw [hx] at h
      have : x = m := by simpa using h
      subst this
      exact List.mem_cons_self x xs
    | some m2 =>
      rw [hx] at h
      have hm : min x m2 = m := by simpa using h
      rcases min_choice x m2 with hc | hc
      · rw [hc] at hm
        rw [← hm]
        exact List.mem_cons_self x xs
      · rw [hc] at hm
        rw [← hm]
        exact List.mem_cons_of_mem x (ih hx)

theorem msPerYear_pos : (0 : Rat) < msPerYear := by
  norm_num [msPerYear]

/-- When every qualifying start date is at or before `now`, the computed
`years_of_experience` is non-negative (99 counts as non-negative). -/
theorem yearsOfExperience_nonneg (now : Int) (ps : List Position)
    (h : ∀ t ∈ seniorityStarts now ps, t ≤ now) : 0 ≤ yearsOfExperience now ps := by
  rw [yearsOfExperience_eq_spec, yearsOfExperienceSpec]
  cases hm : listMin (seniorityStarts now ps) with
  | none => norm_num
  | some e =>
    have he : e ≤ now := h e (listMin_mem hm)
    have hq : (0 : Rat) ≤ ((now : Rat) - (e : Rat)) / msPerYear := by
      apply div_nonneg
      · have : (e : Rat) ≤ (now : Rat) := by exact_mod_cast he
        linarith
      · exact le_of_lt msPerYear_pos
    show (0 : Int) ≤ jsRound (((now : Rat) - (e : Rat)) / msPerYear)
    rw [jsRound]
    rw [show ((0 : Int) = Int.cast 0 : Prop) from rfl] at *
    have : ((0 : Int) : Rat) ≤ ((now : Rat) - (e : Rat)) / msPerYear + 1 / 2 := by
      push_cast
      linarith
    exact Rat.le_floor.mpr this

/-! ### Date-range lemmas -/

theorem mkJobEntry_dateRange (now : Int) (pos : Position) :
    (mkJobEntry now pos).dateRange = dateRangeSpec now pos := by
  unfold mkJobEntry dateRangeSpec
  cases hs : createDateFromPositionDate pos.start with
  | none => rfl
  | some s =>
    simp only
    unfold endMsOf
    cases he : pos.«end» with
    | none => simp [lt_irrefl]
    | some pd =>
      simp only
      cases hd : createDateFromPositionDate (some pd) with
      | none => simp [lt_irrefl]
      | some e2 =>
        simp only [Option.getD_some]
        by_cases hlt : e2 < now
        · rw [if_pos hlt, if_pos hlt]
        · rw [if_neg hlt, if_neg hlt]

theorem jobsFrom_map_dateRange (σ : Nat → Int) (ps : List Position) :
    ∀ i : Nat, (jobsFrom σ i ps).map JobEntry.dateRange = dateRangesSpec σ i ps := by
  induction ps with
  | nil => intro i; rfl
  | cons pos rest ih =>
    intro i
    rw [jobsFrom, dateRangesSpec, List.map_cons, mkJobEntry_dateRange, ih (i + 1)]

/-! ### `decodeURI` lemmas -/

theorem tokenizeURI_cons_raw (c : Char) (hc : c ≠ '%') (l : List Char) :
    tokenizeURI (c :: l) = (tokenizeURI l).map (fun ts => Tok.raw c :: ts) := by
  rw [tokenizeURI.eq_def]
  simp only [if_neg hc]

theorem tokenizeURI_append_raw (pre : List Char) (h : ∀ c ∈ pre, c ≠ '%') (l : List Char) :
    tokenizeURI (pre ++ l) = (tokenizeURI l).map (fun ts => pre.map Tok.raw ++ ts) := by
  induction pre with
  | nil => simp
  | cons c pre2 ih =>
    have hc : c ≠ '%' := h c (List.mem_cons_self c pre2)
    have h2 : ∀ c2 ∈ pre2, c2 ≠ '%' := fun c2 hc2 => h c2 (List.mem_cons_of_mem c hc2)
    rw [List.cons_append, tokenizeURI_cons_raw c hc, ih h2]
    cases tokenizeURI l <;> rfl

theorem decodeToks_cons_raw (c : Char) (ts : List Tok) :
    decodeToks (Tok.raw c :: ts) = (decodeToks ts).map (fun l => c :: l) := rfl

theorem decodeToks_append_raw (pre : List Char) (ts : List Tok) :
    decodeToks (pre.map Tok.raw ++ ts) = (decodeToks ts).map (fun cs => pre ++ cs) := by
  induction pre with
  | nil => simp
  | cons c pre2 ih =>
    rw [List.map_cons, List.cons_append, decodeToks_cons_raw, ih]
    cases decodeToks ts <;> rfl

theorem decodeURIOpt_append (pre s : String) (h : ∀ c ∈ pre.data, c ≠ '%') :
    decodeURIOpt (pre ++ s) = (decodeURIOpt s).map (fun d => pre ++ d) := by
  unfold decodeURIOpt
  have hdata : (pre ++ s).data = pre.data ++ s.data := by
    cases pre; cases s; rfl
  rw [hdata, tokenizeURI_append_raw pre.data h s.data]
  cases hts : tokenizeURI s.data with
  | none => rfl
  | some ts =>
    simp only [Option.map_some']
    rw [decodeToks_append_raw pre.data ts]
    cases decodeToks ts with
    | none => rfl
    | some cs => rfl

/-- The fixed linkedin URL prefix contains no percent sign. -/
theorem linkedinPrefix_no_percent : ∀ c ∈ ("https://linkedin.com/in/" : String).data, c ≠ '%' := by
  decide

/-! ### Languages lemmas -/

theorem languagesOf_error_of_none (p : Profile) (h : p.supportedLocales = none) :
    languagesOf p = Except.error JSError.typeError := by
  have hlc : localeCountry p = Except.error JSError.typeError := by
    rw [localeCountry, h]
  rw [languagesOf]
  cases hpl : p.languages with
  | none => rw [hlc]
  | some ls =>
    simp only
    by_cases hlen : ls.length > 0
    · rw [if_pos hlen, hlc]
    · rw [if_neg hlen, hlc]

theorem languagesOf_ok_of_some (p : Profile) (locs : List Locale)
    (h : p.supportedLocales = some locs) : ∃ s, languagesOf p = Except.ok s := by
  have hlc : localeCountry p = Except.ok ((locs.head?).bind Locale.country) := by
    rw [localeCountry, h]
  rw [languagesOf]
  cases hpl : p.languages with
  | none =>
    rw [hlc]
    exact ⟨_, rfl⟩
  | some ls =>
    simp only
    by_cases hlen : ls.length > 0
    · rw [if_pos hlen, hlc]
      exact ⟨_, rfl⟩
    · rw [if_neg hlen, hlc]
      exact ⟨_, rfl⟩

/-! ### `processProfile` shape lemmas -/

theorem processProfile_ok_char (σ : Nat → Int) (p : Profile) (l d : String)
    (hl : languagesOf p = Except.ok l)
    (hd : decodeURIOpt (p.username.getD "undefined") = some d) :
    processProfile σ p = Except.ok (mkOutput σ p l d ("https://linkedin.com/in/" ++ d)) := by
  have hurl : decodeURIOpt ("https://linkedin.com/in/" ++ p.username.getD "undefined") =
      some ("https://linkedin.com/in/" ++ d) := by
    rw [decodeURIOpt_append _ _ linkedinPrefix_no_percent, hd]
    rfl
  rw [processProfile, hl, hd, hurl]

theorem processProfile_err_uri (σ : Nat → Int) (p : Profile) (l : String)
    (hl : languagesOf p = Except.ok l)
    (hd : decodeURIOpt (p.username.getD "undefined") = none) :
    processProfile σ p = Except.error JSError.uriError := by
  rw [processProfile, hl, hd]

theorem processProfile_err_type (σ : Nat → Int) (p : Profile)
    (h : p.supportedLocales = none) :
    processProfile σ p = Except.error JSError.typeError := by
  rw [processProfile, languagesOf_error_of_none p h]

/-- Projections of the output record agree under `Except.map` as soon as
they agree on every record the success branch can build. -/
theorem processProfile_map_congr {α : Type} (σ : Nat → Int) (p : Profile) (f g : Output → α)
    (h : ∀ l a b, f (mkOutput σ p l a b) = g (mkOutput σ p l a b)) :
    (processProfile σ p).map f = (processProfile σ p).map g := by
  rw [processProfile]
  cases languagesOf p with
  | error e => rfl
  | ok l =>
    cases decodeURIOpt (p.username.getD "undefined") with
    | none => rfl
    | some pubId =>
      cases decodeURIOpt ("https://linkedin.com/in/" ++ p.username.getD "undefined") with
      | none => rfl
      | some url => exact congrArg Except.ok (h l pubId url)

attribute [local semireducible] Rat.mul Rat.inv Rat.add Rat.sub Rat.ofScientific

/-! ### The claims -/

/-- Claim C8 (confirmed): date reconstruction returns no date exactly when
the partial date or its year is absent or falsy; a missing or zero month is
interchangeable with July (1-indexed 7), a missing or zero day with day 1;
and the partial date `{year: 2020}` resolves to the calendar day
2020-07-01. -/
theorem claim_C8 :
    (createDateFromPositionDate none = none) ∧
    (∀ pd : PositionDate, createDateFromPositionDate (some pd) = none ↔
      (pd.year = none ∨ pd.year = some 0)) ∧
    (∀ (y : Int) (d : Option Int),
      createDateFromPositionDate (some { year := some y, month := none, day := d }) =
        createDateFromPositionDate (some { year := some y, month := some 7, day := d }) ∧
      createDateFromPositionDate (some { year := some y, month := some 0, day := d }) =
        createDateFromPositionDate (some { year := some y, month := some 7, day := d })) ∧
    (∀ (y : Int) (m : Option Int),
      createDateFromPositionDate (some { year := some y, month := m, day := none }) =
        createDateFromPositionDate (some { year := some y, month := m, day := some 1 }) ∧
      createDateFromPositionDate (some { year := some y, month := m, day := some 0 }) =
        createDateFromPositionDate (some { year := some y, month := m, day := some 1 })) ∧
    (createDateFromPositionDate (some { year := some 2020 }) = some (mkDateMs 2020 6 1) ∧
      civilFromDays ((mkDateMs 2020 6 1).fdiv msPerDay) = (2020, 7, 1)) := by
  refine ⟨rfl, ?_, ?_, ?_, by decide, by decide⟩
  · intro pd
    rw [createDateFromPositionDate]
    cases hy : pd.year with
    | none => simp
    | some y =>
      by_cases h0 : y = 0
      · simp [h0]
      · simp [h0]
  · intro y d
    constructor <;>
      · rw [createDateFromPositionDate, createDateFromPositionDate]
        by_cases h0 : y = 0
        · simp [h0]
        · simp [h0]
  · intro y m
    constructor <;>
      · rw [createDateFromPositionDate, createDateFromPositionDate]
        by_cases h0 : y = 0
        · simp [h0]
        · simp [h0]

/-- Claim C2, counterexample: a position whose title contains "intern" but
whose employment type is absent satisfies the claim's both-fields predicate
yet is not excluded by the code (`isExcludedPosition` matches "intern" and
"volunteer" only against `employmentType`, "stagiaire" and "bénévole" only
against `title`). -/
theorem claim_C2_counterexample :
    excludedClaimC2 posC2 = true ∧ isExcludedPosition posC2 = false := by
  decide

/-- Claim C2 as amended: a position is excluded from the seniority
calculation iff its employmentType contains "intern" or "volunteer", or
its title contains "stagiaire" or "bénévole" (case-insensitive substring
containment); the seniority calculation filters with exactly this
predicate. -/
theorem claim_C2_amended :
    (∀ pos : Position, isExcludedPosition pos = excludedSpecAmended pos) ∧
    (∀ ps : List Position,
      relevantPositions ps = ps.filter (fun pos => ! excludedSpecAmended pos)) := by
  have hlow : ∀ o : Option String,
      (match o with
        | some s => if s = "" then "" else jsToLower s
        | none => "") = jsToLower (o.getD "") := by
    intro o
    cases o with
    | none => rfl
    | some s =>
      by_cases h : s = ""
      · simp [h]
        rfl
      · simp [h]
  have h1 : ∀ pos : Position, isExcludedPosition pos = excludedSpecAmended pos := by
    intro pos
    rw [isExcludedPosition, excludedSpecAmended]
    rw [hlow pos.employmentType, hlow pos.title]
    simp only [List.any_cons, List.any_nil, Bool.or_false]
    cases jsIncludes (jsToLower (pos.employmentType.getD "")) "intern" <;>
      cases jsIncludes (jsToLower (pos.title.getD "")) "stagiaire" <;>
      cases jsIncludes (jsToLower (pos.employmentType.getD "")) "volunteer" <;>
      cases jsIncludes (jsToLower (pos.title.getD "")) "bénévole" <;> rfl
  refine ⟨h1, ?_⟩
  intro ps
  rw [relevantPositions]
  apply List.filter_congr
  intro pos _
  rw [h1 pos]

/-- Claim C7 (confirmed): `years_of_experience` equals the spec-side
computation — among non-excluded positions with a resolvable start date
and a duration (end or now minus start, in 30-day months, floored at 0) of
at least 7 months, take the earliest start date and round
`(now - earliest) / 365.25 days`; otherwise (in particular for zero
positions) the sentinel 99. -/
theorem claim_C7 :
    (∀ (σ : Nat → Int) (profile : Profile),
      (processProfile σ profile).map Output.years_of_experience =
        (processProfile σ profile).map (fun _ =>
          yearsOfExperienceSpec (σ (profile.position.getD []).length)
            (profile.position.getD []))) ∧
    (∀ now : Int, yearsOfExperienceSpec now [] = 99) := by
  constructor
  · intro σ profile
    apply processProfile_map_congr
    intro l a b
    exact yearsOfExperience_eq_spec (σ (profile.position.getD []).length)
      (profile.position.getD [])
  · intro now
    rfl

/-- Claim C6 (confirmed): experience grouping is an order-preserving
partition by adjacency — the output groups are the spec-side adjacency
grouping, flattening the groups' job lists yields exactly one job entry
per position in original order, the number of groups is one more than the
number of adjacent company-id boundaries, and the spec's A/A/B example
yields two groups of sizes 2 and 1. -/
theorem claim_C6 :
    (∀ (σ : Nat → Int) (profile : Profile),
      (processProfile σ profile).map Output.experiences =
        (processProfile σ profile).map (fun _ =>
          groupPositionsSpec σ 0 (profile.position.getD []))) ∧
    (∀ (σ : Nat → Int) (i : Nat) (ps : List Position),
      ((groupPositionsSpec σ i ps).map ExperienceEntry.jobs).flatten = jobsFrom σ i ps) ∧
    (∀ (σ : Nat → Int) (i : Nat) (ps : List Position),
      (groupPositionsSpec σ i ps).length = if ps.isEmpty then 0 else 1 + cidBoundaries ps) ∧
    ((processProfile clockZero prof6).map (fun o =>
        o.experiences.map (fun e => e.jobs.length)) = Except.ok [2, 1]) := by
  refine ⟨?_, groupPositionsSpec_join, groupPositionsSpec_length, by decide⟩
  intro σ profile
  apply processProfile_map_congr
  intro l a b
  exact buildExperiences_eq σ 0 (profile.position.getD [])

/-- Claim C3, counterexample: a position with start `{year: 2020}` and the
reconstructable end date `{year: 2100}`, processed with a 2024 clock,
yields the date range "Jul 2020 - Present" although the claim demands
"{startMonthYear} - {endMonthYear}" (here "Jul 2020 - Jul 2100") whenever
the end date is reconstructable. -/
theorem claim_C3_counterexample :
    (processProfile clock24 profC3).map (fun o =>
        ((o.experiences.map ExperienceEntry.jobs).flatten).map JobEntry.dateRange) =
      Except.ok ["Jul 2020 - Present"] ∧
    createDateFromPositionDate posC3.«end» = some (mkDateMs 2100 6 1) ∧
    fmtMonthYear (mkDateMs 2020 6 1) ++ " - " ++ fmtMonthYear (mkDateMs 2100 6 1) ≠
      "Jul 2020 - Present" := by
  refine ⟨by decide, by decide, by decide⟩

/-- Claim C3 as amended: for each position (with its per-position clock
sample), the date range is empty when no start date resolves; otherwise it
is "{startMonthYear} - {endMonthYear}" when the end date reconstructs to
an instant strictly before now, and "{startMonthYear} - Present" when the
end date is absent, unreconstructable, or not strictly before now. -/
theorem claim_C3_amended :
    ∀ (σ : Nat → Int) (profile : Profile),
      (processProfile σ profile).map (fun o =>
          ((o.experiences.map ExperienceEntry.jobs).flatten).map JobEntry.dateRange) =
        (processProfile σ profile).map (fun _ =>
          dateRangesSpec σ 0 (profile.position.getD [])) := by
  intro σ profile
  apply processProfile_map_congr
  intro l a b
  have hexp : (mkOutput σ profile l a b).experiences =
      groupPositionsSpec σ 0 (profile.position.getD []) :=
    buildExperiences_eq σ 0 (profile.position.getD [])
  rw [hexp, groupPositionsSpec_join, jobsFrom_map_dateRange]

/-- Claim C4, counterexample: with the clock at the epoch and a single
position running from 2030 to 2031 (duration above 7 months), the output
`years_of_experience` is -60 — neither a non-negative integer nor the
sentinel 99. -/
theorem claim_C4_counterexample :
    (processProfile clockZero profFut).map Output.years_of_experience =
      Except.ok (-60) ∧
    ¬ (0 ≤ (-60 : Int) ∨ (-60 : Int) = 99) := by
  refine ⟨by decide, by decide⟩

/-- Claim C4 as amended: `years_of_experience` is always a rounded
integer, and whenever every qualifying start date is at or before the
seniority clock sample (in particular whenever no position starts in the
future), it is non-negative — with 99 standing in when no position
qualifies. -/
theorem claim_C4_amended :
    ∀ (σ : Nat → Int) (profile : Profile),
      (∀ t ∈ seniorityStarts (σ (profile.position.getD []).length) (profile.position.getD []),
          t ≤ σ (profile.position.getD []).length) →
      ∀ r : Int,
        (processProfile σ profile).map Output.years_of_experience = Except.ok r →
        0 ≤ r := by
  intro σ profile h r hr
  rw [processProfile] at hr
  cases hl : languagesOf profile with
  | error e => rw [hl] at hr; exact absurd hr (by simp [Except.map])
  | ok l =>
    rw [hl] at hr
    cases hd : decodeURIOpt (profile.username.getD "undefined") with
    | none => rw [hd] at hr; exact absurd hr (by simp [Except.map])
    | some d =>
      rw [hd] at hr
      cases hd2 : decodeURIOpt ("https://linkedin.com/in/" ++ profile.username.getD "undefined") with
      | none => rw [hd2] at hr; exact absurd hr (by simp [Except.map])
      | some u =>
        rw [hd2] at hr
        have hyoe : Output.years_of_experience (mkOutput σ profile l d u) = r := by
          simpa [Except.map] using hr
        rw [← hyoe]
        exact yearsOfExperience_nonneg _ _ h

/-- Claim C4, witness: a 2019 current position with a mid-2020 clock gives
the non-negative value 1. -/
theorem claim_C4_witness : (0 : Int) ≤ 1 :=
  claim_C4_amended clockW profW (by decide) 1 (by decide)

/-- Claim C1, counterexample: the completely empty profile (in particular
an absent `supportedLocales` array) makes normalization throw a TypeError
(`profile.supportedLocales[0]` in the languages computation) instead of
producing a normalized record. -/
theorem claim_C1_counterexample :
    processProfile clockZero profEmpty = Except.error JSError.typeError := by
  decide

/-- Claim C1 as amended: every optional field other than
`supportedLocales` is defaulted independently and silently; provided
`supportedLocales` is present (even empty) and the username
percent-decodes, normalization always produces a record.  An absent
`supportedLocales` raises a TypeError instead. -/
theorem claim_C1_amended :
    ∀ (σ : Nat → Int) (profile : Profile),
      profile.supportedLocales ≠ none →
      decodeURIOpt (profile.username.getD "undefined") ≠ none →
      ∃ out, processProfile σ profile = Except.ok out := by
  intro σ profile hsl hdec
  obtain ⟨locs, hlocs⟩ : ∃ locs, profile.supportedLocales = some locs := by
    cases h : profile.supportedLocales with
    | none => exact absurd h hsl
    | some locs => exact ⟨locs, rfl⟩
  obtain ⟨l, hl⟩ := languagesOf_ok_of_some profile locs hlocs
  cases hd : decodeURIOpt (profile.username.getD "undefined") with
  | none => exact absurd hd hdec
  | some d => exact ⟨_, processProfile_ok_char σ profile l d hl hd⟩

/-- Claim C1, witness: the minimal profile with `supportedLocales := []`
normalizes successfully. -/
theorem claim_C1_witness : ∃ out, processProfile clockZero profMin = Except.ok out :=
  claim_C1_amended clockZero profMin (by decide) (by decide)

/-- Claim C9, counterexample: for a profile whose username "%" is invalid
percent-encoding but whose `supportedLocales` is absent, normalization
surfaces a TypeError, not the decode error the claim demands — so the
claimed "exactly when" equivalence fails. -/
theorem claim_C9_counterexample :
    decodeURIOpt "%" = none ∧
    processProfile clockZero profC9 = Except.error JSError.typeError ∧
    JSError.typeError ≠ JSError.uriError := by
  refine ⟨by decide, by decide, by decide⟩

/-- Claim C9 as amended: provided `supportedLocales` is present (so the
earlier languages step does not throw first), normalization surfaces the
decode error exactly when the username's percent-decoding fails, and on
success `public_linkedin_identifier` is the decoded username and
`linkedin_url` is the decoded prefixed URL. -/
theorem claim_C9_amended :
    ∀ (σ : Nat → Int) (profile : Profile),
      profile.supportedLocales ≠ none →
      ((processProfile σ profile = Except.error JSError.uriError ↔
          decodeURIOpt (profile.username.getD "undefined") = none) ∧
        (∀ out, processProfile σ profile = Except.ok out →
          decodeURIOpt (profile.username.getD "undefined") =
            some out.public_linkedin_identifier ∧
          out.linkedin_url =
            "https://linkedin.com/in/" ++ out.public_linkedin_identifier)) := by
  intro σ profile hsl
  obtain ⟨locs, hlocs⟩ : ∃ locs, profile.supportedLocales = some locs := by
    cases h : profile.supportedLocales with
    | none => exact absurd h hsl
    | some locs => exact ⟨locs, rfl⟩
  obtain ⟨l, hl⟩ := languagesOf_ok_of_some profile locs hlocs
  cases hd : decodeURIOpt (profile.username.getD "undefined") with
  | none =>
    have herr := processProfile_err_uri σ profile l hl hd
    refine ⟨⟨fun _ => rfl, fun _ => herr⟩, ?_⟩
    intro out hout
    rw [herr] at hout
    exact absurd hout (by simp)
  | some d =>
    have hok := processProfile_ok_char σ profile l d hl hd
    constructor
    · rw [hok]
      constructor
      · intro h
        exact absurd h (by simp)
      · intro h
        exact absurd h (by simp)
    · intro out hout
      rw [hok] at hout
      have hmk : mkOutput σ profile l d ("https://linkedin.com/in/" ++ d) = out := by
        simpa using hout
      rw [← hmk]
      exact ⟨rfl, rfl⟩

/-- Claim C9, witness: amended equivalence at a concrete decodable
username with `supportedLocales` present. -/
theorem claim_C9_witness :
    processProfile clockZero profV = Except.error JSError.uriError ↔
      decodeURIOpt (profV.username.getD "undefined") = none :=
  (claim_C9_amended clockZero profV (by decide)).1

/-- Claim C5, counterexample: two clock streams that agree on the first
sample (the claimed single capture of "now") but differ on the later
sample produce different outputs for the same record, so "now" is not
captured once and reused. -/
theorem claim_C5_counterexample :
    clockC5a 0 = clockC5b 0 ∧
    processProfile clockC5a profC5 ≠ processProfile clockC5b profC5 := by
  constructor
  · rfl
  · intro h
    have h2 := congrArg (Except.map Output.years_of_experience) h
    exact absurd h2 (by decide)

/-- Claim C5 as amended: the code samples "now" once per position (line
94) plus once for the seniority computation (line 160); the output depends
on the clock stream only through these `positions.length + 1` samples, so
normalizing the same record twice with the same clock stream — in
particular with a single frozen "now" — produces identical output. -/
theorem claim_C5_amended :
    ∀ (σ σ2 : Nat → Int) (profile : Profile),
      (∀ j, j ≤ (profile.position.getD []).length → σ j = σ2 j) →
      processProfile σ profile = processProfile σ2 profile :=
  processProfile_congr

/-- Claim C5, witness: two syntactically different clocks agreeing on the
used samples give the same output for the minimal profile. -/
theorem claim_C5_witness :
    processProfile clockC5w profMin = processProfile clockC5w2 profMin :=
  claim_C5_amended clockC5w clockC5w2 profMin (fun j hj => by
    have h0 : j = 0 := Nat.le_zero.mp hj
    rw [h0]
    rfl)

/-- Claim C10 (confirmed): a missing `companyId` defaults to the empty
string, and any run of two or more consecutive positions with defaulted
empty company ids (immediately preceded by either nothing or a position
with a non-empty id) lands in one experience group that carries the run's
first position's employer metadata — its `companyName`, or "Unknown
Company" when absent — and contains all the run's job entries in order,
regardless of the positions' company names. -/
theorem claim_C10 :
    (∀ p : Position, p.companyId = none → cidOf p = "") ∧
    (∀ (σ : Nat → Int) (pre post run2 : List Position) (r0 r1 : Position),
      (∀ p ∈ r0 :: r1 :: run2, cidOf p = "") →
      (pre = [] ∨ ∃ q, pre.getLast? = some q ∧ cidOf q ≠ "") →
      ∃ e groups2,
        buildExperiences σ 0 none [] (pre ++ (r0 :: r1 :: run2) ++ post) =
          groupPositionsSpec σ 0 pre ++ e :: groups2 ∧
        e.company = strOr r0.companyName "Unknown Company" ∧
        e.companyId = "" ∧
        ∃ tail, e.jobs = jobsFrom σ pre.length (r0 :: r1 :: run2) ++ tail) := by
  constructor
  · intro p h
    simp [cidOf, strOr, h]
  · intro σ pre post run2 r0 r1 hrun hpre
    have hc0 : cidOf r0 = "" := hrun r0 (by simp)
    have heq := buildExperiences_eq σ 0 (pre ++ (r0 :: r1 :: run2) ++ post)
    rw [List.append_assoc] at heq
    have hb : pre = [] ∨ ∀ y0 q, ((r0 :: r1 :: run2) ++ post).head? = some y0 →
        pre.getLast? = some q → cidOf y0 ≠ cidOf q := by
      rcases hpre with h | ⟨q2, hq2, hne⟩
      · exact Or.inl h
      · refine Or.inr ?_
        intro y0 q hy0 hq
        have hy : r0 = y0 := by
          rw [List.cons_append] at hy0
          simpa using hy0
        have hqq : q2 = q := by
          rw [hq2] at hq
          simpa using hq
        rw [← hy, hc0, ← hqq]
        exact fun hcontra => hne hcontra.symm
    rw [groupPositionsSpec_append σ pre ((r0 :: r1 :: run2) ++ post) 0 hb] at heq
    rw [List.cons_append, groupPositionsSpec_cons] at heq
    rw [groupGoSpec_span σ ((r1 :: run2) ++ post)] at heq
    simp only [hc0] at heq
    have hall : ∀ x ∈ r1 :: run2, (fun p => decide (cidOf p = "")) x = true := by
      intro x hx
      simp [hrun x (List.mem_cons_of_mem r0 hx)]
    rw [takeWhile_append_of_all (fun p => cidOf p = "") (r1 :: run2) post hall] at heq
    simp only [Nat.zero_add] at heq
    have hgoal : pre ++ (r0 :: r1 :: run2) ++ post = pre ++ (r0 :: ((r1 :: run2) ++ post)) := by
      simp [List.append_assoc]
    simp only [hgoal]
    refine ⟨_, _, heq, rfl, hc0, ?_⟩
    refine ⟨jobsFrom σ (pre.length + 1 + (r1 :: run2).length)
      (post.takeWhile (fun p => cidOf p = "")), ?_⟩
    show (newEntry r0 (mkJobEntry (σ pre.length) r0)).jobs ++
        jobsFrom σ (pre.length + 1)
          ((r1 :: run2) ++ post.takeWhile (fun p => cidOf p = "")) = _
    rw [jobsFrom_append σ (r1 :: run2) (pre.length + 1)
      (post.takeWhile (fun p => cidOf p = ""))]
    rfl

/-- Claim C10, witness: two consecutive positions with no company id and
different company names merge into one group carrying the first's name. -/
theorem claim_C10_witness :
    ∃ e groups2,
      buildExperiences clockZero 0 none [] (([] : List Position) ++ (posN1 :: posN2 :: []) ++ []) =
        groupPositionsSpec clockZero 0 [] ++ e :: groups2 ∧
      e.company = strOr posN1.companyName "Unknown Company" ∧
      e.companyId = "" ∧
      ∃ tail, e.jobs = jobsFrom clockZero ([] : List Position).length (posN1 :: posN2 :: []) ++ tail :=
  claim_C10.2 clockZero [] [] [] posN1 posN2 (by decide) (Or.inl rfl)

end LinkedinProcessor
